import Mathlib

/-!
Shallow embedding of the word-level RNN training notebook
(`sherlock_hand_GRU.ipynb` and its sibling notebooks).

Part 1: the batch feeder.  The notebook's `feeder` generator reshapes the
flat token stream into a `(batch_size, batch_width)` grid, draws a random
permutation of the valid window start-columns with `random.shuffle`, and
yields `(input, target)` slices.  The random permutation is modelled by an
explicit `order` argument, constrained in theorems to be a permutation of
the list `feeder` shuffles (`shuffle_index = [x for x in range(...)]`).
-/

/-- The configuration fields the feeder reads (`Config` in the notebook). -/
structure Config where
  batch_size : ℕ
  num_rnn_steps : ℕ
deriving DecidableEq

/-- `batch_width = len(word_array) // config.batch_size`. -/
def batchWidth (c : Config) (wordArray : List ℕ) : ℕ :=
  wordArray.length / c.batch_size

/-- `np.reshape(word_array[0 : batch_size*batch_width], (batch_size, batch_width))`:
row-major reshape of the truncated stream, row `r` being the `r`-th
contiguous chunk of width `batch_width`. -/
def feederData (c : Config) (wordArray : List ℕ) : List (List ℕ) :=
  (List.range c.batch_size).map fun r =>
    (((wordArray.take (c.batch_size * batchWidth c wordArray)).drop
        (r * batchWidth c wordArray)).take (batchWidth c wordArray))

/-- `shuffle_index = [x for x in range(batch_width - config.num_rnn_steps - 1)]`.
Python `range` of a negative number is empty, which truncated `ℕ`
subtraction reproduces. -/
def shuffleIndex (c : Config) (wordArray : List ℕ) : List ℕ :=
  List.range (batchWidth c wordArray - c.num_rnn_steps - 1)

/-- `x = data[:, i : i+num_rnn_steps]`. -/
def batchX (data : List (List ℕ)) (numSteps i : ℕ) : List (List ℕ) :=
  data.map fun row => (row.drop i).take numSteps

/-- `y = data[:, i+num_rnn_steps].reshape((-1, 1))`: a column, one
singleton row per grid row. -/
def batchY (data : List (List ℕ)) (numSteps i : ℕ) : List (List ℕ) :=
  data.map fun row => [row.getD (i + numSteps) 0]

/-- The batches yielded by one `feeder` pass, given the shuffled order
`order` produced by `random.shuffle`. -/
def feeder (c : Config) (wordArray : List ℕ) (order : List ℕ) :
    List (List (List ℕ) × List (List ℕ)) :=
  order.map fun i =>
    (batchX (feederData c wordArray) c.num_rnn_steps i,
     batchY (feederData c wordArray) c.num_rnn_steps i)

/-- `epoch_len`: Python integer arithmetic, so the result may be negative. -/
def epoch_len (c : Config) (wordArray : List ℕ) : ℤ :=
  (batchWidth c wordArray : ℤ) - c.num_rnn_steps - 1

/-- Observable error outcomes of running the feeder.  Python raises
`ZeroDivisionError` at `len(word_array) // config.batch_size` when
`batch_size = 0`; `ConfigError` is the setup error the specification
describes. -/
inductive PyError where
  | zeroDivisionError : PyError
  | configError : PyError
deriving DecidableEq

/-- Running the feeder including the error behaviour of the division in
`batch_width = len(word_array) // config.batch_size`. -/
def feederChecked (c : Config) (wordArray : List ℕ) (order : List ℕ) :
    Except PyError (List (List (List ℕ) × List (List ℕ))) :=
  if c.batch_size = 0 then Except.error PyError.zeroDivisionError
  else Except.ok (feeder c wordArray order)

example : batchWidth ⟨2, 2⟩ [0,1,2,3,4,5,6,7,8,9] = 5 := by decide
example : shuffleIndex ⟨2, 2⟩ [0,1,2,3,4,5,6,7,8,9] = [0, 1] := by decide
example : feederData ⟨2, 2⟩ [0,1,2,3,4,5,6,7,8,9] = [[0,1,2,3,4],[5,6,7,8,9]] := by
  decide
example :
    feeder ⟨2, 2⟩ [0,1,2,3,4,5,6,7,8,9] [1, 0] =
      [([[1,2],[6,7]], [[3],[8]]), ([[0,1],[5,6]], [[2],[7]])] := by decide

/-! Helper lemmas about the grid and slicing. -/

lemma batchWidth_mul_le (c : Config) (w : List ℕ) :
    c.batch_size * batchWidth c w ≤ w.length := by
  rw [Nat.mul_comm]
  exact Nat.div_mul_le_self w.length c.batch_size

lemma feederData_length (c : Config) (w : List ℕ) :
    (feederData c w).length = c.batch_size := by
  simp [feederData]

lemma getD_map_of_lt (f : List ℕ → List ℕ) (l : List (List ℕ)) (r : ℕ)
    (hr : r < l.length) :
    (l.map f).getD r [] = f (l.getD r []) := by
  rw [List.getD_eq_getElem?_getD, List.getElem?_map, List.getElem?_eq_getElem hr,
    List.getD_eq_getElem?_getD, List.getElem?_eq_getElem hr]
  rfl

lemma row_width_le (c : Config) (w : List ℕ) (r : ℕ) (hr : r < c.batch_size) :
    r * batchWidth c w + batchWidth c w ≤ w.length := by
  have h1 : (r + 1) * batchWidth c w ≤ c.batch_size * batchWidth c w :=
    Nat.mul_le_mul_right _ hr
  have h2 := batchWidth_mul_le c w
  calc r * batchWidth c w + batchWidth c w = (r + 1) * batchWidth c w := by ring
    _ ≤ c.batch_size * batchWidth c w := h1
    _ ≤ w.length := h2

lemma feederData_row (c : Config) (w : List ℕ) (r : ℕ) (hr : r < c.batch_size) :
    (feederData c w).getD r [] =
      (w.drop (r * batchWidth c w)).take (batchWidth c w) := by
  rw [List.getD_eq_getElem?_getD]
  unfold feederData
  rw [List.getElem?_map, List.getElem?_range hr]
  simp only [Option.map_some', Option.getD_some]
  rw [List.drop_take, List.take_take]
  congr 1
  have h1 : (r + 1) * batchWidth c w ≤ c.batch_size * batchWidth c w :=
    Nat.mul_le_mul_right _ hr
  have h2 : r * batchWidth c w + batchWidth c w = (r + 1) * batchWidth c w := by ring
  omega

lemma feederData_row_length (c : Config) (w : List ℕ) (r : ℕ)
    (hr : r < c.batch_size) :
    ((feederData c w).getD r []).length = batchWidth c w := by
  rw [feederData_row c w r hr]
  have := row_width_le c w r hr
  simp only [List.length_take, List.length_drop]
  omega

lemma slice_getD (l : List ℕ) (a m k : ℕ) (hk : k < m) :
    ((l.drop a).take m).getD k 0 = l.getD (a + k) 0 := by
  rw [List.getD_eq_getElem?_getD, List.getElem?_take, if_pos hk, List.getElem?_drop,
    ← List.getD_eq_getElem?_getD]

lemma gridEntry_eq_stream (c : Config) (w : List ℕ) (r j : ℕ)
    (hr : r < c.batch_size) (hj : j < batchWidth c w) :
    ((feederData c w).getD r []).getD j 0 = w.getD (r * batchWidth c w + j) 0 := by
  rw [feederData_row c w r hr, slice_getD _ _ _ _ hj]

lemma mem_shuffleIndex (c : Config) (w : List ℕ) (i : ℕ)
    (hi : i ∈ shuffleIndex c w) :
    i + c.num_rnn_steps + 1 < batchWidth c w := by
  have := List.mem_range.mp hi
  omega

/-- Claim C2: the token grid has `row_width = L // num_rows`, drops only the
trailing remainder (`num_rows * row_width ≤ L`), row `r` is the slice
`token_stream[r*row_width : r*row_width + row_width]`, and for each yielded
start-column `i` the batch is `grid[:, i : i+num_steps]` with target column
`grid[:, i+num_steps]` of shape `(num_rows, 1)` — all stated back on the flat
token stream. -/
theorem claim_C2_token_grid (c : Config) (w : List ℕ) (i : ℕ)
    (_hbs : 0 < c.batch_size) (hi : i ∈ shuffleIndex c w) :
    batchWidth c w = w.length / c.batch_size ∧
    c.batch_size * batchWidth c w ≤ w.length ∧
    (∀ r < c.batch_size, (feederData c w).getD r [] =
        (w.drop (r * batchWidth c w)).take (batchWidth c w)) ∧
    (∀ r < c.batch_size, ∀ k < c.num_rnn_steps,
        ((batchX (feederData c w) c.num_rnn_steps i).getD r []).getD k 0 =
          w.getD (r * batchWidth c w + (i + k)) 0) ∧
    (∀ r < c.batch_size,
        (batchY (feederData c w) c.num_rnn_steps i).getD r [] =
          [w.getD (r * batchWidth c w + (i + c.num_rnn_steps)) 0]) ∧
    (batchX (feederData c w) c.num_rnn_steps i).length = c.batch_size ∧
    (∀ row ∈ batchX (feederData c w) c.num_rnn_steps i,
        row.length = c.num_rnn_steps) ∧
    (batchY (feederData c w) c.num_rnn_steps i).length = c.batch_size ∧
    (∀ row ∈ batchY (feederData c w) c.num_rnn_steps i, row.length = 1) := by
  have hwin := mem_shuffleIndex c w i hi
  refine ⟨rfl, batchWidth_mul_le c w, ?_, ?_, ?_, ?_, ?_, ?_, ?_⟩
  · exact fun r hr => feederData_row c w r hr
  · intro r hr k hk
    have hlen : r < (feederData c w).length := by rw [feederData_length]; exact hr
    rw [batchX, getD_map_of_lt _ _ _ hlen, slice_getD _ _ _ _ hk,
      gridEntry_eq_stream c w r (i + k) hr (by omega)]
  · intro r hr
    have hlen : r < (feederData c w).length := by rw [feederData_length]; exact hr
    rw [batchY, getD_map_of_lt _ _ _ hlen,
      gridEntry_eq_stream c w r (i + c.num_rnn_steps) hr (by omega)]
  · simp [batchX, feederData_length]
  · intro row hrow
    obtain ⟨grow, hg, rfl⟩ := List.mem_map.mp hrow
    obtain ⟨r, hr, rfl⟩ := List.mem_map.mp hg
    have hr' : r < c.batch_size := List.mem_range.mp hr
    have : ((feederData c w).getD r []) =
        ((w.take (c.batch_size * batchWidth c w)).drop (r * batchWidth c w)).take
          (batchWidth c w) := by
      rw [List.getD_eq_getElem?_getD]
      unfold feederData
      rw [List.getElem?_map, List.getElem?_range hr']
      rfl
    have hl : (((w.take (c.batch_size * batchWidth c w)).drop
        (r * batchWidth c w)).take (batchWidth c w)).length = batchWidth c w := by
      rw [← this]
      exact feederData_row_length c w r hr'
    simp only [List.length_take, List.length_drop] at hl ⊢
    omega
  · simp [batchY, feederData_length]
  · intro row hrow
    obtain ⟨grow, _, rfl⟩ := List.mem_map.mp hrow
    rfl

/-- Claim C3 (counterexample): with an empty token stream, `batch_size = 1`
and `num_rnn_steps = 1`, the feeder yields `0` batches while `epoch_len`
returns `-2`, so `epoch_len` does not agree with the number of batches
yielded (the only possible shuffle of the empty start-column list is the
empty order). -/
theorem claim_C3_counterexample :
    (feeder ⟨1, 1⟩ [] (shuffleIndex ⟨1, 1⟩ [])).length = 0 ∧
    epoch_len ⟨1, 1⟩ [] = -2 ∧
    epoch_len ⟨1, 1⟩ [] ≠ ((feeder ⟨1, 1⟩ [] (shuffleIndex ⟨1, 1⟩ [])).length : ℤ) := by
  decide

/-- Claim C3 (amended): provided a window fits (`num_steps + 1 ≤ row_width`),
one feeder pass yields exactly `row_width - num_steps - 1` batches, the
start-columns visited are a no-repeat permutation of
`{0, …, row_width - num_steps - 2}`, and `epoch_len` equals that batch count;
when no window fits, the feeder yields zero batches but `epoch_len` is
negative. -/
theorem claim_C3_epoch_count (c : Config) (w : List ℕ) (order : List ℕ)
    (hord : order.Perm (shuffleIndex c w))
    (hfit : c.num_rnn_steps + 1 ≤ batchWidth c w) :
    (feeder c w order).length = batchWidth c w - c.num_rnn_steps - 1 ∧
    order.Perm (List.range (batchWidth c w - c.num_rnn_steps - 1)) ∧
    order.Nodup ∧
    epoch_len c w = ((feeder c w order).length : ℤ) := by
  have hlen : (feeder c w order).length = order.length := by
    simp [feeder]
  have holen : order.length = batchWidth c w - c.num_rnn_steps - 1 := by
    rw [hord.length_eq]
    simp [shuffleIndex]
  refine ⟨by omega, hord, ?_, ?_⟩
  · exact (hord.nodup_iff).mpr (List.nodup_range _)
  · rw [hlen]
    unfold epoch_len
    omega

/-- Claim C4 (counterexample): on the ten-token stream with `num_rows = 2`
and `num_steps = 2` we get `row_width = 5`, so the claim asserts the drawn
permutation covers `0..row_width-num_steps-1 = {0,1,2}`; the code shuffles
`range(row_width - num_steps - 1) = [0,1]`, which is not a permutation of
`{0,1,2}`, and start-column `2` is never visited. -/
theorem claim_C4_counterexample :
    batchWidth ⟨2, 2⟩ [0,1,2,3,4,5,6,7,8,9] - 2 - 1 = 2 ∧
    shuffleIndex ⟨2, 2⟩ [0,1,2,3,4,5,6,7,8,9] = [0, 1] ∧
    2 ∉ shuffleIndex ⟨2, 2⟩ [0,1,2,3,4,5,6,7,8,9] ∧
    ¬ (shuffleIndex ⟨2, 2⟩ [0,1,2,3,4,5,6,7,8,9]).Perm (List.range 3) := by
  decide

/-- Claim C4 (amended): the offset permutation drawn each epoch is a
permutation of `0 .. row_width - num_steps - 2` (Python
`range(row_width - num_steps - 1)`, exclusive), so the start-column
`row_width - num_steps - 1` — whose window's target would be the last grid
column — is never visited. -/
theorem claim_C4_start_columns (c : Config) (w : List ℕ) (order : List ℕ)
    (hord : order.Perm (shuffleIndex c w)) :
    order.Perm (List.range (batchWidth c w - c.num_rnn_steps - 1)) ∧
    (batchWidth c w - c.num_rnn_steps - 1) ∉ order := by
  refine ⟨hord, fun hmem => ?_⟩
  have := (hord.mem_iff).mp hmem
  simp only [shuffleIndex, List.mem_range] at this
  omega

/-- Claim C8 (counterexample): no `ConfigError` exists in the code.  With
`num_rows = 0` the division `len(word_array) // batch_size` raises
`ZeroDivisionError`, not `ConfigError`; with `num_rows = 2` over a 3-token
stream we get `row_width = 1 < num_steps + 1 = 3`, yet setup succeeds and the
feeder silently yields no batches. -/
theorem claim_C8_counterexample :
    feederChecked ⟨0, 2⟩ [0,1,2] [] = Except.error PyError.zeroDivisionError ∧
    feederChecked ⟨0, 2⟩ [0,1,2] [] ≠ Except.error PyError.configError ∧
    feederChecked ⟨2, 2⟩ [0,1,2] (shuffleIndex ⟨2, 2⟩ [0,1,2]) = Except.ok [] := by
  refine ⟨rfl, fun h => ?_, rfl⟩
  rw [show feederChecked ⟨0, 2⟩ [0,1,2] [] = Except.error PyError.zeroDivisionError
    from rfl] at h
  exact PyError.noConfusion (Except.error.inj h)

/-- Claim C8 (amended): the setup performs no configuration validation:
`ConfigError` is never raised; `num_rows = 0` surfaces as a
`ZeroDivisionError` at grid construction; and any positive `num_rows` with
`row_width < num_steps + 1` succeeds, yielding the (empty) batch list. -/
theorem claim_C8_no_config_error (c : Config) (w : List ℕ) (order : List ℕ) :
    feederChecked c w order ≠ Except.error PyError.configError ∧
    (c.batch_size = 0 →
      feederChecked c w order = Except.error PyError.zeroDivisionError) ∧
    (0 < c.batch_size →
      feederChecked c w order = Except.ok (feeder c w order)) := by
  unfold feederChecked
  refine ⟨?_, fun h => by rw [if_pos h], fun h => by rw [if_neg (by omega)]⟩
  split
  · intro h
    exact PyError.noConfusion (Except.error.inj h)
  · intro h
    exact Except.noConfusion h

/-- Claim C8 witness: the amended theorem applied to the degenerate
configurations of the counterexample. -/
theorem claim_C8_no_config_error_witness :
    feederChecked ⟨0, 2⟩ [0,1,2] [] ≠ Except.error PyError.configError ∧
    feederChecked ⟨2, 2⟩ [0,1,2] [] = Except.ok (feeder ⟨2, 2⟩ [0,1,2] []) :=
  ⟨(claim_C8_no_config_error ⟨0, 2⟩ [0,1,2] []).1,
   (claim_C8_no_config_error ⟨2, 2⟩ [0,1,2] []).2.2 (by decide)⟩

/-- Claim C10: whenever `0 < batch_size` and
`row_width = len(word_array) // batch_size ≤ num_steps + 1`, the start-column
range is empty, so the feeder returns an empty sequence silently — no error
is raised and an epoch performs no training steps. -/
theorem claim_C10_degenerate_empty (c : Config) (w : List ℕ) (order : List ℕ)
    (hbs : 0 < c.batch_size)
    (hdeg : batchWidth c w ≤ c.num_rnn_steps + 1)
    (hord : order.Perm (shuffleIndex c w)) :
    feeder c w order = [] ∧ feederChecked c w order = Except.ok [] := by
  have hempty : shuffleIndex c w = [] := by
    unfold shuffleIndex
    have : batchWidth c w - c.num_rnn_steps - 1 = 0 := by omega
    rw [this]
    rfl
  rw [hempty] at hord
  have horder : order = [] := hord.eq_nil
  subst horder
  refine ⟨rfl, ?_⟩
  unfold feederChecked
  rw [if_neg (by omega)]
  rfl

/-- Claim C10 witness: a 3-token stream with two rows gives `row_width = 1`,
below the `num_steps + 1 = 3` needed for a window, and the feeder yields
nothing. -/
theorem claim_C10_degenerate_empty_witness :
    0 < (2 : ℕ) ∧ batchWidth ⟨2, 2⟩ [0,1,2] ≤ 2 + 1 ∧
    feeder ⟨2, 2⟩ [0,1,2] [] = [] ∧
    feederChecked ⟨2, 2⟩ [0,1,2] [] = Except.ok [] :=
  ⟨by decide, by decide,
   claim_C10_degenerate_empty ⟨2, 2⟩ [0,1,2] [] (by decide) (by decide)
     (by decide)⟩

/-- Claim C2 witness: scenario with ten tokens, two rows and two steps at
start-column `1`; checks one input-window entry and one target row against
the flat stream. -/
theorem claim_C2_token_grid_witness :
    0 < (2 : ℕ) ∧ 1 ∈ shuffleIndex ⟨2, 2⟩ [0,1,2,3,4,5,6,7,8,9] ∧
    ((batchX (feederData ⟨2, 2⟩ [0,1,2,3,4,5,6,7,8,9]) 2 1).getD 1 []).getD 0 0 =
      [0,1,2,3,4,5,6,7,8,9].getD
        (1 * batchWidth ⟨2, 2⟩ [0,1,2,3,4,5,6,7,8,9] + (1 + 0)) 0 ∧
    (batchY (feederData ⟨2, 2⟩ [0,1,2,3,4,5,6,7,8,9]) 2 1).getD 1 [] =
      [[0,1,2,3,4,5,6,7,8,9].getD
        (1 * batchWidth ⟨2, 2⟩ [0,1,2,3,4,5,6,7,8,9] + (1 + 2)) 0] :=
  ⟨by decide, by decide,
   (claim_C2_token_grid ⟨2, 2⟩ [0,1,2,3,4,5,6,7,8,9] 1 (by decide)
     (by decide)).2.2.2.1 1 (by decide) 0 (by decide),
   (claim_C2_token_grid ⟨2, 2⟩ [0,1,2,3,4,5,6,7,8,9] 1 (by decide)
     (by decide)).2.2.2.2.1 1 (by decide)⟩

/-- Claim C3 witness: ten tokens, two rows, two steps, shuffled order
`[1, 0]`: the feeder yields `5 - 2 - 1 = 2` batches and `epoch_len` agrees. -/
theorem claim_C3_epoch_count_witness :
    (feeder ⟨2, 2⟩ [0,1,2,3,4,5,6,7,8,9] [1, 0]).length =
      batchWidth ⟨2, 2⟩ [0,1,2,3,4,5,6,7,8,9] - 2 - 1 ∧
    epoch_len ⟨2, 2⟩ [0,1,2,3,4,5,6,7,8,9] =
      ((feeder ⟨2, 2⟩ [0,1,2,3,4,5,6,7,8,9] [1, 0]).length : ℤ) :=
  ⟨(claim_C3_epoch_count ⟨2, 2⟩ [0,1,2,3,4,5,6,7,8,9] [1, 0] (by decide)
     (by decide)).1,
   (claim_C3_epoch_count ⟨2, 2⟩ [0,1,2,3,4,5,6,7,8,9] [1, 0] (by decide)
     (by decide)).2.2.2⟩

/-- Claim C4 witness: with `row_width = 5` and `num_steps = 2`, the shuffled
order `[1, 0]` is a permutation of `range 2` and start-column `2` is not
visited. -/
theorem claim_C4_start_columns_witness :
    ([1, 0] : List ℕ).Perm
      (List.range (batchWidth ⟨2, 2⟩ [0,1,2,3,4,5,6,7,8,9] - 2 - 1)) ∧
    (batchWidth ⟨2, 2⟩ [0,1,2,3,4,5,6,7,8,9] - 2 - 1) ∉ ([1, 0] : List ℕ) :=
  claim_C4_start_columns ⟨2, 2⟩ [0,1,2,3,4,5,6,7,8,9] [1, 0] (by decide)

/-!
Part 2: the hand-coded GRU cell (`init_rnn_cell` / `cell` in the notebook).

Vectors are functions `Fin n → ℝ`; `tf.concat(axis=1)` per batch row is
`Fin.append`, `tf.matmul` per batch row is a vector–matrix product, and the
batched TensorFlow ops act row-by-row, so the cell is embedded per lane.
`tf.sigmoid t = 1 / (1 + exp (-t))` and `tf.tanh` is the real `tanh`.
-/

noncomputable def sigmoid (t : ℝ) : ℝ := 1 / (1 + Real.exp (-t))

noncomputable def matvec {m n : ℕ} (v : Fin m → ℝ) (M : Fin m → Fin n → ℝ) :
    Fin n → ℝ :=
  fun j => ∑ i, v i * M i j

/-- The variables created by `init_rnn_cell` for the gates (`Wr`, `Wz`, `W`
of shape `(i_sz, o_sz) = (embed_size + rnn_size, rnn_size)`; `br`, `bz`, `b`
of length `rnn_size`). -/
structure GRUParams (e r : ℕ) where
  Wr : Fin (e + r) → Fin r → ℝ
  Wz : Fin (e + r) → Fin r → ℝ
  W : Fin (e + r) → Fin r → ℝ
  br : Fin r → ℝ
  bz : Fin r → ℝ
  b : Fin r → ℝ

/-- `r = tf.sigmoid(tf.matmul(xh, Wr) + br)` with `xh = tf.concat([x, h_1])`. -/
noncomputable def resetGate {e r : ℕ} (p : GRUParams e r) (x : Fin e → ℝ)
    (h_1 : Fin r → ℝ) : Fin r → ℝ :=
  fun j => sigmoid (matvec (Fin.append x h_1) p.Wr j + p.br j)

/-- `z = tf.sigmoid(tf.matmul(xh, Wz) + bz)`. -/
noncomputable def updateGate {e r : ℕ} (p : GRUParams e r) (x : Fin e → ℝ)
    (h_1 : Fin r → ℝ) : Fin r → ℝ :=
  fun j => sigmoid (matvec (Fin.append x h_1) p.Wz j + p.bz j)

/-- `h_tild = tf.tanh(tf.matmul(xrh_1, W) + b)` with
`xrh_1 = tf.concat([x, r * h_1])`. -/
noncomputable def candidate {e r : ℕ} (p : GRUParams e r) (x : Fin e → ℝ)
    (h_1 : Fin r → ℝ) : Fin r → ℝ :=
  fun j =>
    Real.tanh
      (matvec (Fin.append x (fun k => resetGate p x h_1 k * h_1 k)) p.W j + p.b j)

/-- `h = z*h_1 + (1-z)*h_tild`: one transition of the hand-coded GRU
(`cell` in the notebook). -/
noncomputable def cell {e r : ℕ} (p : GRUParams e r) (x : Fin e → ℝ)
    (h_1 : Fin r → ℝ) : Fin r → ℝ :=
  fun j =>
    updateGate p x h_1 j * h_1 j + (1 - updateGate p x h_1 j) * candidate p x h_1 j

/-- The gated-recurrence update exactly as the specification's pseudocode
writes it, for comparison with `cell`. -/
noncomputable def gruCellSpec {e r : ℕ} (p : GRUParams e r) (x : Fin e → ℝ)
    (h_prev : Fin r → ℝ) : Fin r → ℝ :=
  let concat_xh := Fin.append x h_prev
  let reset_gate : Fin r → ℝ := fun j => sigmoid (matvec concat_xh p.Wr j + p.br j)
  let update_gate : Fin r → ℝ := fun j => sigmoid (matvec concat_xh p.Wz j + p.bz j)
  let gated_prev : Fin r → ℝ := fun j => reset_gate j * h_prev j
  let concat_xrh := Fin.append x gated_prev
  let cand : Fin r → ℝ := fun j => Real.tanh (matvec concat_xrh p.W j + p.b j)
  fun j => update_gate j * h_prev j + (1 - update_gate j) * cand j

/-- Claim C1: one Recurrent Cell transition computes exactly the canonical
GRU update of the specification's pseudocode, and the transition is a pure,
deterministic function of `(x, h_prev, parameters)`: equal arguments give
equal outputs. -/
theorem claim_C1_gru_cell {e r : ℕ} (p : GRUParams e r) (x : Fin e → ℝ)
    (h_prev : Fin r → ℝ) :
    cell p x h_prev = gruCellSpec p x h_prev ∧
    (∀ (p' : GRUParams e r) (x' : Fin e → ℝ) (h' : Fin r → ℝ),
      p' = p → x' = x → h' = h_prev → cell p' x' h' = cell p x h_prev) := by
  refine ⟨rfl, ?_⟩
  rintro p' x' h' rfl rfl rfl
  rfl

/-- All-zero parameters, used to instantiate witnesses. -/
def zeroGRUParams : GRUParams 1 1 :=
  ⟨fun _ _ => 0, fun _ _ => 0, fun _ _ => 0, fun _ => 0, fun _ => 0, fun _ => 0⟩

/-- Claim C1 witness: the cell agrees with the specification's update on the
all-zero one-dimensional instance, and equal arguments give equal outputs
there. -/
theorem claim_C1_gru_cell_witness :
    cell zeroGRUParams (fun _ => 0) (fun _ => 0) =
      gruCellSpec zeroGRUParams (fun _ => 0) (fun _ => 0) ∧
    cell zeroGRUParams (fun _ => 0) (fun _ => 0) =
      cell zeroGRUParams (fun _ => 0) (fun _ => 0) :=
  ⟨(claim_C1_gru_cell zeroGRUParams (fun _ => 0) (fun _ => 0)).1,
   (claim_C1_gru_cell zeroGRUParams (fun _ => 0) (fun _ => 0)).2
     zeroGRUParams (fun _ => 0) (fun _ => 0) rfl rfl rfl⟩

lemma sigmoid_pos (t : ℝ) : 0 < sigmoid t := by
  unfold sigmoid
  positivity

lemma sigmoid_lt_one (t : ℝ) : sigmoid t < 1 := by
  unfold sigmoid
  rw [div_lt_one (by positivity)]
  have := Real.exp_pos (-t)
  linarith

lemma tanh_mem_Ioo (t : ℝ) : -1 < Real.tanh t ∧ Real.tanh t < 1 := by
  have hc := Real.cosh_pos t
  have hsq := Real.cosh_sq_sub_sinh_sq t
  rw [Real.tanh_eq_sinh_div_cosh]
  constructor
  · rw [lt_div_iff₀ hc]
    nlinarith [sq_nonneg (Real.sinh t + Real.cosh t)]
  · rw [div_lt_one hc]
    nlinarith [sq_nonneg (Real.cosh t - Real.sinh t)]

lemma interp_mem (a b z : ℝ) (h0 : 0 < z) (h1 : z < 1) :
    min a b ≤ z * a + (1 - z) * b ∧ z * a + (1 - z) * b ≤ max a b := by
  rcases le_total a b with h | h
  · rw [min_eq_left h, max_eq_right h]
    constructor <;> nlinarith
  · rw [min_eq_right h, max_eq_left h]
    constructor <;> nlinarith

/-- Claim C5: every reset- and update-gate component lies strictly in
`(0, 1)`, every candidate component lies in `(-1, 1)`, and every component of
`h_next` lies between the corresponding components of `h_prev` and the
candidate (convex-combination bound). -/
theorem claim_C5_numeric_bounds {e r : ℕ} (p : GRUParams e r) (x : Fin e → ℝ)
    (h_prev : Fin r → ℝ) (j : Fin r) :
    0 < resetGate p x h_prev j ∧ resetGate p x h_prev j < 1 ∧
    0 < updateGate p x h_prev j ∧ updateGate p x h_prev j < 1 ∧
    -1 < candidate p x h_prev j ∧ candidate p x h_prev j < 1 ∧
    min (h_prev j) (candidate p x h_prev j) ≤ cell p x h_prev j ∧
    cell p x h_prev j ≤ max (h_prev j) (candidate p x h_prev j) :=
  ⟨sigmoid_pos _, sigmoid_lt_one _, sigmoid_pos _, sigmoid_lt_one _,
   (tanh_mem_Ioo _).1, (tanh_mem_Ioo _).2,
   (interp_mem (h_prev j) (candidate p x h_prev j) (updateGate p x h_prev j)
     (sigmoid_pos _) (sigmoid_lt_one _)).1,
   (interp_mem (h_prev j) (candidate p x h_prev j) (updateGate p x h_prev j)
     (sigmoid_pos _) (sigmoid_lt_one _)).2⟩

/-!
Part 3: the learned initial state and the unrolled model.

`init_rnn_cell` creates `h_init = tf.get_variable('h_init', (batch_size,
o_sz), tf.float32, zero_initializer)` — a trainable variable of shape
`(batch_size, rnn_size)` — and `model` unrolls `s[0] = h_init;
s.append(cell(embed_out[:, i, :], s[-1]))`.
-/

/-- All variables created by `init_rnn_cell`: the gate parameters plus the
trainable initial state `h_init`, one row per lane. -/
structure GRUVars (e r batch : ℕ) extends GRUParams e r where
  h_init : Fin batch → Fin r → ℝ

/-- The unroll of `model`: state `0` is `h_init`, and each step applies the
cell row-by-row to that step's embedded input. -/
noncomputable def modelStates {e r batch : ℕ} (v : GRUVars e r batch)
    (embedOut : ℕ → Fin batch → Fin e → ℝ) : ℕ → Fin batch → Fin r → ℝ
  | 0 => v.h_init
  | i + 1 => fun lane =>
      cell v.toGRUParams (embedOut i lane) (modelStates v embedOut i lane)

/-- A well-typed assignment of the notebook's variables in which lane `0`
and lane `1` carry different initial-state rows. -/
noncomputable def unsharedVars : GRUVars 1 1 2 :=
  { Wr := fun _ _ => 0, Wz := fun _ _ => 0, W := fun _ _ => 0,
    br := fun _ => 0, bz := fun _ => 0, b := fun _ => 0,
    h_init := fun lane _ => ((lane : ℕ) : ℝ) }

/-- Claim C6 (counterexample): `h_init` has shape `(batch_size, rnn_size)`,
one trainable row per lane, so it is not a single `rnn_size`-vector shared
identically across lanes: a well-typed parameter assignment gives lanes `0`
and `1` different states before the first unrolled step. -/
theorem claim_C6_counterexample :
    modelStates unsharedVars (fun _ _ _ => 0) 0 0 0 ≠
      modelStates unsharedVars (fun _ _ _ => 0) 0 1 0 := by
  show ((((0 : Fin 2) : ℕ) : ℝ)) ≠ (((1 : Fin 2) : ℕ) : ℝ)
  norm_num

/-- Claim C6 (amended): the initial recurrent state is the trainable
parameter `h_init` of shape `(batch_size, rnn_size)` — one learned row per
lane rather than one vector shared across lanes — and it is re-used
identically as the state before the first unrolled step of every window:
the pre-first-step state equals `h_init` regardless of the window fed in,
and each unrolled step applies the cell to the previous state. -/
theorem claim_C6_learned_init {e r batch : ℕ} (v : GRUVars e r batch)
    (embedOut embedOut' : ℕ → Fin batch → Fin e → ℝ) :
    modelStates v embedOut 0 = v.h_init ∧
    modelStates v embedOut 0 = modelStates v embedOut' 0 ∧
    (∀ (i : ℕ) (lane : Fin batch),
      modelStates v embedOut (i + 1) lane =
        cell v.toGRUParams (embedOut i lane) (modelStates v embedOut i lane)) :=
  ⟨rfl, rfl, fun _ _ => rfl⟩

/-!
Part 4: the full-vocabulary predictor and the autoregressive generator.

`loss` exposes `y_hat = tf.argmax(tf.matmul(hid_out, w, transpose_b=True) +
b, axis=1)`, and the prediction cell runs, for `i` in range: feed
`input[i : i+num_rnn_steps]`, compute `y_hat`, append it to `input`.
`tf.argmax` returns the first index attaining the maximum.  The trained
encoder (embedding, recurrent unroll and hidden layer, restored from the
checkpoint) enters only through the representation it produces, so it is a
function argument `enc`; scores are rationals so the theorems stay
executable. -/

def dot (a v : List ℚ) : ℚ := (List.zipWith (fun x y => x * y) a v).sum

/-- `tf.matmul(hid_out, w, transpose_b=True) + b` for one batch row:
score of vocabulary word `v` is `hid_out · w[v] + b[v]`. -/
def denseScores (w : List (List ℚ)) (b : List ℚ) (hidOut : List ℚ) : List ℚ :=
  List.zipWith (fun wrow bv => dot hidOut wrow + bv) w b

/-- `tf.argmax` / `np.argmax`: index of the first occurrence of the maximum. -/
def argmax (l : List ℚ) : ℕ :=
  l.findIdx fun a => decide (∀ x ∈ l, x ≤ a)

/-- The `y_hat` predictor of `loss`. -/
def yHat (w : List (List ℚ)) (b : List ℚ) (hidOut : List ℚ) : ℕ :=
  argmax (denseScores w b hidOut)

/-- The prediction cell's loop: at iteration `i`, feed
`input[i : i+num_rnn_steps]`, run the predictor, append the prediction. -/
def genLoop (next : List ℕ → ℕ) (numSteps : ℕ) (seed : List ℕ) (n : ℕ) :
    List ℕ :=
  (List.range n).foldl
    (fun inp i => inp ++ [next ((inp.drop i).take numSteps)]) seed

/-- Autoregressive generation of `n` tokens from the seed window, with the
trained network entering through `enc` and the output projection `(w, b)`. -/
def generate (enc : List ℕ → List ℚ) (w : List (List ℚ)) (b : List ℚ)
    (numSteps : ℕ) (seed : List ℕ) (n : ℕ) : List ℕ :=
  genLoop (fun window => yHat w b (enc window)) numSteps seed n

lemma argmax_isMax (l : List ℚ) (hl : l ≠ []) :
    argmax l < l.length ∧ ∀ j < l.length, l.getD j 0 ≤ l.getD (argmax l) 0 := by
  have hbot : l.maximum ≠ ⊥ := fun h => hl (List.maximum_eq_bot.mp h)
  obtain ⟨m, hm⟩ := WithBot.ne_bot_iff_exists.mp hbot
  have hmem : m ∈ l := List.maximum_mem hm.symm
  have hmax : ∀ x ∈ l, x ≤ m := fun x hx => by
    exact_mod_cast List.le_maximum_of_mem hx hm.symm
  have hex : ∃ x ∈ l, (fun a => decide (∀ y ∈ l, y ≤ a)) x = true :=
    ⟨m, hmem, by simpa using hmax⟩
  have hlt : argmax l < l.length := List.findIdx_lt_length_of_exists hex
  have hp : ∀ x ∈ l, x ≤ l.get ⟨argmax l, hlt⟩ := by
    have h := @List.findIdx_getElem ℚ (fun a => decide (∀ y ∈ l, y ≤ a)) l hlt
    simpa using h
  refine ⟨hlt, fun j hj => ?_⟩
  rw [List.getD_eq_getElem?_getD, List.getD_eq_getElem?_getD,
    List.getElem?_eq_getElem hj, List.getElem?_eq_getElem hlt]
  simp only [Option.getD_some]
  exact hp _ (List.getElem_mem hj)

example : generate (fun _ => [1]) [[2],[3]] [0,0] 1 [0] 2 = [0, 1, 1] := by
  norm_num [generate, genLoop, List.range_succ, yHat, denseScores, dot, argmax,
    List.findIdx_cons]

/-- Claim C7: generation is deterministic — runs with equal parameters and
equal seed windows produce equal token sequences — each step appends the
`y_hat` prediction computed from the window `input[i : i+num_steps]`, and the
predicted token maximizes the full-vocabulary dense scores
`representation · Wᵀ + b` (no randomness anywhere in the loop). -/
theorem claim_C7_generator_deterministic
    (enc enc' : List ℕ → List ℚ) (w w' : List (List ℚ)) (b b' : List ℚ)
    (numSteps n : ℕ) (seed seed' : List ℕ)
    (henc : enc = enc') (hw : w = w') (hb : b = b') (hseed : seed = seed') :
    generate enc w b numSteps seed n = generate enc' w' b' numSteps seed' n ∧
    generate enc w b numSteps seed (n + 1) =
      generate enc w b numSteps seed n ++
        [yHat w b
          (enc (((generate enc w b numSteps seed n).drop n).take numSteps))] ∧
    (∀ window : List ℕ, denseScores w b (enc window) ≠ [] →
      ∀ j < (denseScores w b (enc window)).length,
        (denseScores w b (enc window)).getD j 0 ≤
          (denseScores w b (enc window)).getD (yHat w b (enc window)) 0) := by
  subst henc hw hb hseed
  refine ⟨rfl, ?_, ?_⟩
  · unfold generate genLoop
    rw [List.range_succ, List.foldl_append]
    rfl
  · intro window hne j hj
    exact (argmax_isMax _ hne).2 j hj

/-- Claim C7 witness: a two-word vocabulary with constant representation
`[1]`, output rows `[[2], [3]]` and zero bias; both runs produce `[0, 1, 1]`
and each appended token maximizes the dense scores. -/
theorem claim_C7_generator_deterministic_witness :
    generate (fun _ => [1]) [[2],[3]] [0,0] 1 [0] 1 =
      generate (fun _ => [1]) [[2],[3]] [0,0] 1 [0] 1 ∧
    generate (fun _ => [1]) [[2],[3]] [0,0] 1 [0] (1 + 1) =
      generate (fun _ => [1]) [[2],[3]] [0,0] 1 [0] 1 ++
        [yHat [[2],[3]] [0,0]
          ((fun _ => [1])
            (((generate (fun _ => [1]) [[2],[3]] [0,0] 1 [0] 1).drop 1).take 1))] ∧
    generate (fun _ => [1]) [[2],[3]] [0,0] 1 [0] 2 = [0, 1, 1] :=
  ⟨(claim_C7_generator_deterministic (fun _ => [1]) (fun _ => [1]) [[2],[3]]
      [[2],[3]] [0,0] [0,0] 1 1 [0] [0] rfl rfl rfl rfl).1,
   (claim_C7_generator_deterministic (fun _ => [1]) (fun _ => [1]) [[2],[3]]
      [[2],[3]] [0,0] [0,0] 1 1 [0] [0] rfl rfl rfl rfl).2.1,
   by norm_num [generate, genLoop, List.range_succ, yHat, denseScores, dot,
     argmax, List.findIdx_cons]⟩

/-!
Part 5: the trainer's moving-average loss buffer.

The training cell keeps `move_avg_loss = np.zeros(move_avg_len)` and, for
each processed batch with global step `step`, executes
`move_avg_loss[step % move_avg_len] = batch_loss`; at the end of every epoch
it prints `np.mean(move_avg_loss)`.  Losses are embedded as rationals; the
global step advances by one per batch.
-/

/-- `move_avg_loss[step % move_avg_len] = batch_loss`. -/
def bufStep (n : ℕ) (buf : List ℚ) (step : ℕ) (loss : ℚ) : List ℚ :=
  buf.set (step % n) loss

/-- Folding the per-batch buffer update over a run of batch losses whose
first batch has global step `s`. -/
def runBuffer (n : ℕ) (buf : List ℚ) (s : ℕ) : List ℚ → List ℚ
  | [] => buf
  | loss :: rest => runBuffer n (bufStep n buf s loss) (s + 1) rest

/-- `np.mean(move_avg_loss)`. -/
def reportLoss (buf : List ℚ) : ℚ := buf.sum / buf.length

lemma runBuffer_length (n : ℕ) :
    ∀ (L buf : List ℚ) (s : ℕ), (runBuffer n buf s L).length = buf.length := by
  intro L
  induction L with
  | nil => intro buf s; rfl
  | cons a L ih =>
    intro buf s
    rw [runBuffer, ih]
    exact List.length_set ..

lemma runBuffer_append (n : ℕ) :
    ∀ (A B buf : List ℚ) (s : ℕ),
      runBuffer n buf s (A ++ B) =
        runBuffer n (runBuffer n buf s A) (s + A.length) B := by
  intro A
  induction A with
  | nil => intro B buf s; simp [runBuffer]
  | cons a A ih =>
    intro B buf s
    have harg : s + 1 + A.length = s + (a :: A).length := by
      simp only [List.length_cons]
      omega
    rw [List.cons_append, runBuffer, runBuffer, ih, harg]

lemma getD_set_self (buf : List ℚ) (k : ℕ) (a : ℚ) (hk : k < buf.length) :
    (buf.set k a).getD k 0 = a := by
  rw [List.getD_eq_getElem?_getD, List.getElem?_set_eq_of_lt a hk]
  rfl

lemma getD_set_other (buf : List ℚ) (k j : ℕ) (a : ℚ) (hkj : k ≠ j) :
    (buf.set k a).getD j 0 = buf.getD j 0 := by
  rw [List.getD_eq_getElem?_getD, List.getElem?_set_ne hkj,
    ← List.getD_eq_getElem?_getD]

lemma mod_two_n (n t : ℕ) (ht : t < 2 * n) :
    t % n = if t < n then t else t - n := by
  split
  · exact Nat.mod_eq_of_lt (by assumption)
  · rw [Nat.mod_eq_sub_mod (by omega)]
    exact Nat.mod_eq_of_lt (by omega)

/-- One step of the circular slot arithmetic: how the distance
`(j + n - s % n) % n` from the write position to slot `j` evolves when the
step advances. -/
lemma circular_step (n s j : ℕ) (hn : 0 < n) (hj : j < n) :
    ((j + n - s % n) % n = 0 → j = s % n ∧ (j + n - (s + 1) % n) % n = n - 1) ∧
    ((j + n - s % n) % n ≠ 0 → j ≠ s % n ∧
      (j + n - (s + 1) % n) % n = (j + n - s % n) % n - 1) := by
  rcases Nat.lt_or_ge n 2 with h2 | h2
  · have hn1 : n = 1 := by omega
    subst hn1
    simp only [Nat.mod_one]
    exact ⟨fun _ => ⟨by omega, trivial⟩, fun h0 => absurd rfl h0⟩
  · have hm : s % n < n := Nat.mod_lt _ hn
    have h1n : 1 % n = 1 := Nat.mod_eq_of_lt (by omega)
    have hsucc : (s + 1) % n = (s % n + 1) % n := by
      rw [Nat.add_mod, h1n]
    have e1 : (j + n - s % n) % n =
        if j + n - s % n < n then j + n - s % n else j + n - s % n - n :=
      mod_two_n n (j + n - s % n) (by omega)
    rcases Nat.lt_or_ge (s % n + 1) n with hc | hc
    · have hs1 : (s + 1) % n = s % n + 1 := by
        rw [hsucc]
        exact Nat.mod_eq_of_lt hc
      have e2 : (j + n - (s % n + 1)) % n =
          if j + n - (s % n + 1) < n then j + n - (s % n + 1)
          else j + n - (s % n + 1) - n :=
        mod_two_n n (j + n - (s % n + 1)) (by omega)
      rw [hs1]
      by_cases hb1 : j + n - s % n < n
      · rw [if_pos hb1] at e1
        by_cases hb2 : j + n - (s % n + 1) < n
        · rw [if_pos hb2] at e2
          exact ⟨fun h0 => ⟨by omega, by omega⟩, fun h0 => ⟨by omega, by omega⟩⟩
        · rw [if_neg hb2] at e2
          exact ⟨fun h0 => ⟨by omega, by omega⟩, fun h0 => ⟨by omega, by omega⟩⟩
      · rw [if_neg hb1] at e1
        by_cases hb2 : j + n - (s % n + 1) < n
        · rw [if_pos hb2] at e2
          exact ⟨fun h0 => ⟨by omega, by omega⟩, fun h0 => ⟨by omega, by omega⟩⟩
        · rw [if_neg hb2] at e2
          exact ⟨fun h0 => ⟨by omega, by omega⟩, fun h0 => ⟨by omega, by omega⟩⟩
    · have hmn : s % n + 1 = n := by omega
      have hs1 : (s + 1) % n = 0 := by
        rw [hsucc, hmn, Nat.mod_self]
      rw [hs1]
      have hjn : (j + n - 0) % n = j := by
        simp only [Nat.sub_zero]
        rw [Nat.add_mod_right]
        exact Nat.mod_eq_of_lt hj
      rw [hjn]
      by_cases hb1 : j + n - s % n < n
      · rw [if_pos hb1] at e1
        exact ⟨fun h0 => ⟨by omega, by omega⟩, fun h0 => ⟨by omega, by omega⟩⟩
      · rw [if_neg hb1] at e1
        exact ⟨fun h0 => ⟨by omega, by omega⟩, fun h0 => ⟨by omega, by omega⟩⟩

lemma runBuffer_getD (n : ℕ) (hn : 0 < n) :
    ∀ (L buf : List ℚ) (s j : ℕ), buf.length = n → L.length ≤ n → j < n →
      (runBuffer n buf s L).getD j 0 =
        if (j + n - s % n) % n < L.length then L.getD ((j + n - s % n) % n) 0
        else buf.getD j 0 := by
  intro L
  induction L with
  | nil =>
    intro buf s j hbuf hL hj
    simp [runBuffer]
  | cons a L ih =>
    intro buf s j hbuf hL hj
    have hsm : s % n < n := Nat.mod_lt _ hn
    have hlen : (bufStep n buf s a).length = n := by
      rw [bufStep, List.length_set, hbuf]
    have hLn : L.length + 1 ≤ n := by simpa using hL
    have hcs := circular_step n s j hn hj
    rw [runBuffer, ih (bufStep n buf s a) (s + 1) j hlen (by omega) hj]
    by_cases hd : (j + n - s % n) % n = 0
    · obtain ⟨hjs, hd'⟩ := hcs.1 hd
      rw [hd', hd, if_neg (by omega), if_pos (by simp)]
      subst hjs
      rw [bufStep, getD_set_self buf _ a (by omega)]
      rfl
    · obtain ⟨hjs, hd'⟩ := hcs.2 hd
      rw [hd']
      obtain ⟨k, hk⟩ : ∃ k, (j + n - s % n) % n = k + 1 :=
        ⟨(j + n - s % n) % n - 1, by omega⟩
      rw [hk]
      simp only [Nat.add_sub_cancel, List.length_cons]
      by_cases hlt : k < L.length
      · rw [if_pos hlt, if_pos (by omega), List.getD_cons_succ]
      · rw [if_neg hlt, if_neg (by omega), bufStep,
          getD_set_other buf _ _ a (fun h => hjs h.symm)]

/-- After processing exactly `n` consecutive-step batches the buffer is the
loss list rotated by the starting write position. -/
lemma runBuffer_full (n : ℕ) (hn : 0 < n) (buf L : List ℚ) (s : ℕ)
    (hbuf : buf.length = n) (hL : L.length = n) :
    runBuffer n buf s L = L.rotate (n - s % n) := by
  have hlen : (runBuffer n buf s L).length = (L.rotate (n - s % n)).length := by
    rw [runBuffer_length, hbuf, List.length_rotate, hL]
  apply List.ext_getElem hlen
  intro j h1 h2
  have hj : j < n := by
    rw [runBuffer_length, hbuf] at h1
    exact h1
  have hsm : s % n < n := Nat.mod_lt _ hn
  have hd : (j + n - s % n) % n < n := Nat.mod_lt _ hn
  have lhs : (runBuffer n buf s L).getD j 0 = L.getD ((j + n - s % n) % n) 0 := by
    rw [runBuffer_getD n hn L buf s j hbuf (le_of_eq hL) hj, if_pos (by omega)]
  rw [← List.getD_eq_getElem _ 0 h1, lhs, List.getD_eq_getElem _ 0 (by omega),
    List.getElem_rotate]
  congr 1
  rw [hL]
  have harg : j + (n - s % n) = j + n - s % n := by omega
  rw [harg]

lemma runBuffer_perm (n : ℕ) (hn : 0 < n) (buf L : List ℚ) (s : ℕ)
    (hbuf : buf.length = n) (hL : L.length = n) :
    (runBuffer n buf s L).Perm L := by
  rw [runBuffer_full n hn buf L s hbuf hL]
  exact List.rotate_perm L _

/-- Claim C9: the moving-average state is a fixed-size circular buffer:
updating at global step `s` writes that batch's loss to slot
`s % move_avg_len` and leaves every other slot (and the length) unchanged;
consequently, after a run whose last `move_avg_len` batches have losses `L`,
the buffer holds exactly those losses (as a permutation); and the epoch-end
report is the arithmetic mean — buffer sum over `move_avg_len`. -/
theorem claim_C9_moving_average (n : ℕ) (buf : List ℚ) (s : ℕ) (loss : ℚ)
    (hist L : List ℚ) (hn : 0 < n) (hbuf : buf.length = n) (hL : L.length = n) :
    (bufStep n buf s loss).getD (s % n) 0 = loss ∧
    (∀ j < n, j ≠ s % n → (bufStep n buf s loss).getD j 0 = buf.getD j 0) ∧
    (bufStep n buf s loss).length = n ∧
    (runBuffer n buf s (hist ++ L)).Perm L ∧
    reportLoss (runBuffer n buf s (hist ++ L)) =
      (runBuffer n buf s (hist ++ L)).sum / (n : ℚ) := by
  have hsm : s % n < n := Nat.mod_lt _ hn
  refine ⟨?_, ?_, ?_, ?_, ?_⟩
  · exact getD_set_self buf _ loss (by omega)
  · intro j hj hne
    exact getD_set_other buf _ _ loss (fun h => hne h.symm)
  · rw [bufStep, List.length_set, hbuf]
  · rw [runBuffer_append]
    exact runBuffer_perm n hn _ L _ (by rw [runBuffer_length, hbuf]) hL
  · rw [reportLoss, runBuffer_length, hbuf]

/-- Claim C9 witness: buffer of length `2` starting at step `1`: the single
update writes slot `1 % 2`, and after the three losses `[1, 2, 3]` the buffer
holds a permutation of the last two, with the report equal to the mean. -/
theorem claim_C9_moving_average_witness :
    (bufStep 2 [0, 0] 1 5).getD (1 % 2) 0 = 5 ∧
    (runBuffer 2 [0, 0] 1 ([1] ++ [2, 3])).Perm [2, 3] ∧
    reportLoss (runBuffer 2 [0, 0] 1 ([1] ++ [2, 3])) =
      (runBuffer 2 [0, 0] 1 ([1] ++ [2, 3])).sum / (2 : ℚ) :=
  ⟨(claim_C9_moving_average 2 [0, 0] 1 5 [1] [2, 3] (by omega) rfl rfl).1,
   (claim_C9_moving_average 2 [0, 0] 1 5 [1] [2, 3] (by omega) rfl rfl).2.2.2.1,
   (claim_C9_moving_average 2 [0, 0] 1 5 [1] [2, 3] (by omega) rfl rfl).2.2.2.2⟩
